import Mathlib

/-!
Verification of the feed-processing core of the cors-bridge repository:
the canonical feed model (`src/domain/FeedItem`), the RSS dialect parser
(`FeedParser`), the transform engine (`FeedTransformService`), the content
enhancer (`ContentEnhancementService`) and the RSS serializer
(`FormatConversionService`).

Modelling conventions:
- TypeScript strings are Lean `String`s; optional fields are `Option`s.
- JavaScript truthiness on strings ("" is falsy) is modelled by `truthyS` /
  `truthyO`; `a || b` on strings is `jsOr` / `jsOrStr`.
- `new Date(s).getTime()` is modelled by an explicit parameter
  `p : String → Option Int`: `p s = some t` when the JS date parser accepts
  `s` with timestamp `t`, `none` when `new Date(s)` is an Invalid Date (NaN
  timestamp).  Comparisons and comparator arithmetic involving NaN follow the
  ECMAScript rules: a relational comparison with NaN is false, and a sort
  comparator returning NaN is treated as `+0` by `SortCompare`.
- `Array.prototype.sort(comparator)` is modelled by `sortCmp`, a stable
  insertion sort: for a consistent comparator this is exactly the (stable,
  sorted) behaviour ECMAScript guarantees.
-/

/-! ## JavaScript string helpers -/

/-- Truthiness of a JS string: `""` is falsy, every other string is truthy. -/
def truthyS (s : String) : Bool := !(s = "")

/-- Truthiness of a possibly-undefined JS string (`undefined` and `""` falsy). -/
def truthyO (o : Option String) : Bool := truthyS (o.getD "")

/-- JS `a || b` where `a`, `b` are possibly-undefined strings. -/
def jsOr (a b : Option String) : Option String := if truthyO a then a else b

/-- JS `a || d` where `a` is a possibly-undefined string and `d` a string. -/
def jsOrStr (a : Option String) (d : String) : String :=
  match a with
  | some s => if s = "" then d else s
  | none => d

/-- Whether `needle` occurs at the start of `hay` (on character lists). -/
def startsList : List Char → List Char → Bool
  | [], _ => true
  | _ :: _, [] => false
  | a :: as, b :: bs => a == b && startsList as bs

/-- Whether `needle` occurs anywhere inside `hay`; models
`String.prototype.includes` (in particular the empty needle always matches). -/
def hasSub (needle : List Char) : List Char → Bool
  | [] => startsList needle []
  | c :: t => if startsList needle (c :: t) then true else hasSub needle t

/-- JS `hay.includes(needle)`. -/
def jsIncludes (hay needle : String) : Bool := hasSub needle.data hay.data

/-! ## Whitespace trimming (fast-xml-parser runs with `trimValues: true`) -/

/-- The whitespace class used for trimming text values. -/
def isWs (c : Char) : Bool := c = ' ' || c = '\t' || c = '\n' || c = '\r'

/-- The image of a single character under the five escape passes. -/
def escChar (c : Char) : List Char :=
  if c = '&' then "&amp;".data
  else if c = '<' then "&lt;".data
  else if c = '>' then "&gt;".data
  else if c = '"' then "&quot;".data
  else if c = '\'' then "&apos;".data
  else [c]

/-- `FeedItem.enclosure`. -/
structure Enclosure where
  url : String
  type : String
  length : Option String
deriving DecidableEq

/-- The canonical `FeedItem`. -/
structure FeedItem where
  title : String
  link : String
  description : String
  pubDate : String
  author : Option String := none
  categories : Option (List String) := none
  guid : Option String := none
  content : Option String := none
  enclosure : Option Enclosure := none
deriving DecidableEq

/-- `ParsedFeed.feedType` provenance tag. -/
inductive FeedType where
  | rss
  | atom
deriving DecidableEq

/-- The canonical `ParsedFeed`. -/
structure ParsedFeed where
  title : String
  description : String
  link : String
  language : Option String := none
  items : List FeedItem
  feedType : FeedType
deriving DecidableEq

/-! ## Losslessness of `escapeXml` through the parser's entity decoding -/

theorem escChar_ne_nil (c : Char) : escChar c ≠ [] := by
  unfold escChar
  split <;> try simp
  split <;> try simp
  split <;> try simp
  split <;> try simp
  split <;> simp

theorem jsOrStr_some_empty (s : String) : jsOrStr (some s) "" = s := by
  by_cases h : s = "" <;> simp [jsOrStr, h]

/-! ## The XML node shapes fast-xml-parser produces for an RSS document

fast-xml-parser maps repeated child elements to the singleton/array ambiguous
shape `Multi`: a tag that never occurs is absent, a tag occurring once is the
bare node, a tag occurring twice or more is an array of nodes. -/

/-- The JS "absent / single node / array of nodes" shape. -/
inductive Multi (α : Type) where
  | absent
  | one (a : α)
  | many (l : List α)
deriving DecidableEq

/-- View a `Multi` as the list of nodes it carries. -/
def Multi.toList {α : Type} : Multi α → List α
  | .absent => []
  | .one a => [a]
  | .many l => l

/-- A decoded element text value as fast-xml-parser returns it with the
default `parseTagValue: true`: the trimmed, entity-decoded text as a string,
or — when that text is numeric under the library's strnum conversion — the
corresponding number.  The numeric payload is an integer in the model; the
claims depend only on `num 0` being falsy, so fractional and exponent forms
(`"0.0"`, `"1e3"`) are abstracted to their integer value. -/
inductive RText where
  | str (s : String)
  | num (v : Int)
deriving DecidableEq

/-- The string a decoded value renders as (JS `String(value)`).  The typed
canonical model stores this rendering where the runtime would store the raw
value. -/
def RText.jsString : RText → String
  | .str s => s
  | .num v => toString v

/-- JS truthiness of a possibly-undefined decoded value: `undefined`, `""`
and the number 0 are falsy. -/
def rtruthy (o : Option RText) : Bool :=
  match o with
  | some (.str s) => truthyS s
  | some (.num v) => !(v = 0)
  | none => false

/-- JS `a || b` on possibly-undefined decoded values. -/
def jsOrR (a b : Option RText) : Option RText := if rtruthy a then a else b

/-- JS `a || d` on a possibly-undefined decoded value with a string default,
rendered into the typed model. -/
def jsOrRStr (a : Option RText) (d : String) : String :=
  if rtruthy a then (a.getD (.str "")).jsString else d

/-- An RSS `<category>` node: a bare text value (a string, or a
strnum-coerced number), or an attribute-bearing node whose text (if any)
sits under the `#text` key. -/
inductive CatNode where
  | value (v : RText)
  | withText (text : Option RText)
deriving DecidableEq

/-- JS truthiness of a category value: the empty string and the number 0
are falsy; an object node is always truthy. -/
def catTruthy : CatNode → Bool
  | .value v => rtruthy (some v)
  | .withText _ => true

/-- The text `parseRSSItem` extracts from one category node:
`typeof cat === 'string' ? cat : cat['#text'] || ''` — a coerced numeric
category is not a string, and reading `['#text']` on a number gives
`undefined`, so it collapses to `''`. -/
def catText : CatNode → String
  | .value (.str s) => s
  | .value (.num _) => ""
  | .withText t => jsOrRStr t ""

/-- An `<enclosure>` node; `@_url`, `@_type`, `@_length` attributes.
Attribute values stay strings: the parser's `parseAttributeValue` option is
left at its default `false`. -/
structure EncNode where
  url : Option String := none
  type : Option String := none
  length : Option String := none
deriving DecidableEq

/-- An `<item>` node as produced by fast-xml-parser, restricted to the keys
`parseRSSItem` reads.  Text-valued keys carry the trimmed, entity-decoded,
strnum-coerced element value; `guid` is modelled in its bare-value form (the
`#text` node form does not occur in the serializer's output). -/
structure RItem where
  title : Option RText := none
  link : Option RText := none
  description : Option RText := none
  pubDate : Option RText := none
  pubdate : Option RText := none
  author : Option RText := none
  dcCreator : Option RText := none
  creator : Option RText := none
  category : Multi CatNode := .absent
  guid : Option RText := none
  contentEncoded : Option RText := none
  content : Option RText := none
  enclosure : Option EncNode := none
deriving DecidableEq

/-- A `<channel>` node, restricted to the keys `parseRSS` reads. -/
structure RChannel where
  title : Option RText := none
  description : Option RText := none
  link : Option RText := none
  language : Option RText := none
  item : Multi RItem := .absent
deriving DecidableEq

/-- The `<rss>` root node. -/
structure RssNode where
  channel : RChannel
deriving DecidableEq

namespace FeedParser

/-- The `item.category ? (Array.isArray(item.category) ? item.category :
[item.category]) : []` normalization inside `parseRSSItem`: the JS truthiness
test on `item.category` drops a single falsy (empty-string) category node,
while an array — of any length — is always truthy. -/
def categoryList (m : Multi CatNode) : List CatNode :=
  match m with
  | .absent => []
  | .one c => if catTruthy c then [c] else []
  | .many l => l

/-- `FeedParser.parseRSSItem`.  Field for field:
`title: item.title || ''`, `link: item.link || ''`,
`description: item.description || ''`,
`pubDate: item.pubDate || item.pubdate || ''`,
`author: item.author || item['dc:creator'] || item.creator`,
`categories: (item.category ? (Array.isArray ? item.category : [item.category]) : []).map(...)`,
`guid: item.guid?.['#text'] || item.guid || ''` (bare-value guid),
`content: item['content:encoded'] || item.content || item.description || ''`,
`enclosure: item.enclosure ? {url: @_url || '', type: @_type || '', length: @_length} : undefined`.
A field the runtime would hold as a coerced number is stored in the typed
model by its string rendering. -/
def parseRSSItem (item : RItem) : FeedItem :=
  let categories : List CatNode := categoryList item.category
  { title := jsOrRStr item.title ""
    link := jsOrRStr item.link ""
    description := jsOrRStr item.description ""
    pubDate := jsOrRStr (jsOrR item.pubDate item.pubdate) ""
    author := (jsOrR (jsOrR item.author item.dcCreator) item.creator).map RText.jsString
    categories := some (categories.map catText)
    guid := some (jsOrRStr item.guid "")
    content := some (jsOrRStr (jsOrR (jsOrR item.contentEncoded item.content) item.description) "")
    enclosure := item.enclosure.map (fun e =>
      { url := jsOrStr e.url "", type := jsOrStr e.type "", length := e.length }) }

/-- `FeedParser.parseRSS`.  `channel.item` is normalized to a sequence
(`Array.isArray(channel.item) ? channel.item : [channel.item || []]`; the
absent case wraps the empty-array placeholder, which fails the title filter
below and contributes nothing, so it is modelled as the empty sequence);
nodes whose `title` is absent or falsy are dropped by
`.filter((item) => item && item.title)` — this drops titles that are the
empty string and also titles whose text the default `parseTagValue`
coercion turned into the falsy number 0 (e.g. `<title>0</title>`). -/
def parseRSS (rss : RssNode) : ParsedFeed :=
  let channel := rss.channel
  let items : List RItem := channel.item.toList
  { title := jsOrRStr channel.title ""
    description := jsOrRStr channel.description ""
    link := jsOrRStr channel.link ""
    language := channel.language.map RText.jsString
    feedType := .rss
    items := (items.filter (fun it => rtruthy it.title)).map parseRSSItem }

end FeedParser

/-! ## `FormatConversionService.toRSS` composed with the XML parse

`toRSS` emits the fixed RSS 2.0 template of `FormatConversionService`: channel
`<title>`, `<link>`, `<description>` always, `<language>` when truthy, then one
`<item>` per entry with `<title>`, `<link>`, `<description>` always and
`<pubDate>`, `<dc:creator>`, `<guid>`, `<content:encoded>` (CDATA),
`<category>` (repeated) and `<enclosure>` (attributes) conditionally.

The emitted document has exactly the template's element structure only under
two conditions, which the round-trip theorem carries as hypotheses:
- escaped element text cannot break out (no literal `<` survives
  `escapeXml`), but the `content:encoded` CDATA is interpolated verbatim, so
  a content containing `]]>` terminates the CDATA section at its first
  occurrence and everything after it becomes live markup inside the item
  (`contentEncodedSlot_injection` exhibits this on the emitted string);
- the enclosure `length` attribute is likewise interpolated unescaped into
  `length="..."`, so a double quote inside it ends the attribute early and
  the remainder becomes markup.

Under those conditions, the functions below give, field by field, the node
tree fast-xml-parser returns on this document: element text comes back
trimmed, entity-decoded and value-coerced (`tv` applied to `textVal` of the
escaped text, where `tv : String → RText` is the library's strnum coercion),
per-tag multiplicity follows `Multi.ofList`, and CDATA content is passed
through verbatim (CDATA text is neither entity-decoded nor value-coerced). -/

namespace FormatConversionService

/-- The `content:encoded` fragment `generateRSSItem` emits for a truthy
content, straight from the template:
`<content:encoded><![CDATA[${item.content}]]></content:encoded>`. -/
def contentEncodedSlot (content : String) : String :=
  "<content:encoded><![CDATA[" ++ content ++ "]]></content:encoded>"

/-- Whether a string contains the CDATA terminator `]]>`. -/
def hasCdataClose (s : String) : Bool := hasSub "]]>".data s.data

/-- The CDATA injection `toRSS` is exposed to: this content — obtainable from
a source document via `]]&gt;` sequences, and so parser-producible — makes
the emitted `content:encoded` fragment two complete `content:encoded`
elements with a live `description` element between them.  The re-parsed item
then has two `description` children (fast-xml-parser returns an array), so
the re-parse no longer has the template shape `fxpItemNode` describes. -/
theorem contentEncodedSlot_injection :
    hasCdataClose
        "]]></content:encoded><description>HACK</description><content:encoded><![CDATA["
      = true ∧
    contentEncodedSlot
        "]]></content:encoded><description>HACK</description><content:encoded><![CDATA["
      = "<content:encoded><![CDATA[]]></content:encoded><description>HACK</description><content:encoded><![CDATA[]]></content:encoded>" := by
  constructor
  · decide
  · rfl

end FormatConversionService

/-- Claim C5 (amended): for every RSS document, the parsed item count equals
the number of `<item>` nodes whose title value is truthy — present,
nonempty, and not coerced to the falsy number 0 — and every other item node
is excluded. -/
theorem parseRSS_item_count (rss : RssNode) :
    (FeedParser.parseRSS rss).items.length
      = ((rss.channel.item.toList).filter (fun n => rtruthy n.title)).length ∧
    ((∀ n ∈ rss.channel.item.toList, rtruthy n.title = true) →
      (FeedParser.parseRSS rss).items.length = rss.channel.item.toList.length) := by
  constructor
  · simp [FeedParser.parseRSS]
  · intro h
    simp only [FeedParser.parseRSS, List.length_map]
    rw [List.filter_eq_self.mpr h]

/-- An RSS channel with two titled items and one untitled item. -/
def rssNodeC5 : RssNode :=
  ⟨{ title := some (.str "F")
     item := .many [{ title := some (.str "A") },
       { title := none, link := some (.str "x") },
       { title := some (.str "B") }] }⟩

/-- Witness for C5: on `rssNodeC5`, two of three item nodes carry a truthy
title and the parse yields exactly those two; on its all-titled sub-channel
the implication of the claim gives the full count. -/
theorem parseRSS_item_count_witness :
    (FeedParser.parseRSS rssNodeC5).items.length
      = ((rssNodeC5.channel.item.toList).filter (fun n => rtruthy n.title)).length ∧
    (FeedParser.parseRSS (⟨{ item := .many [{ title := some (.str "A") },
        { title := some (.str "B") }] }⟩ : RssNode)).items.length
      = (Multi.many [({ title := some (.str "A") } : RItem),
          { title := some (.str "B") }]).toList.length :=
  ⟨(parseRSS_item_count rssNodeC5).1,
   (parseRSS_item_count ⟨{ item := .many [{ title := some (.str "A") },
       { title := some (.str "B") }] }⟩).2 (by decide)⟩

/-- A document whose single item carries the title `0`
(`<item><title>0</title></item>`): the default `parseTagValue` conversion
returns the element text as the number 0. -/
def rssNodeC5b : RssNode :=
  ⟨{ title := some (.str "F")
     item := .one { title := some (.num 0), link := some (.str "x") } }⟩

/-- Counterexample to C5 as stated: every item node of `rssNodeC5b` carries
a title, yet the parse drops the item titled `0` — its coerced value is the
falsy number 0, so `.filter((item) => item && item.title)` removes it — and
the item count is 0, not 1. -/
theorem parseRSS_item_count_cex :
    (∀ n ∈ rssNodeC5b.channel.item.toList, n.title.isSome = true) ∧
    (FeedParser.parseRSS rssNodeC5b).items.length
      ≠ rssNodeC5b.channel.item.toList.length := by
  decide

/-! ## Date timestamps and the `Array.prototype.sort` model -/

/-- `new Date(item.pubDate || 0).getTime()` for a date parser `p`: an empty
`pubDate` is falsy, so `new Date(0)` gives timestamp 0; a nonempty `pubDate`
is parsed, yielding `none` (NaN) when unparseable. -/
def itemTime (p : String → Option Int) (it : FeedItem) : Option Int :=
  if it.pubDate = "" then some 0 else p it.pubDate

/-- The timestamp of an item with empty or unparseable `pubDate` counted as
0 — the reading the specification uses for chronological order. -/
def t0 (p : String → Option Int) (it : FeedItem) : Int :=
  (itemTime p it).getD 0

/-- JS `x >= y` on `Date`s: false whenever either side is an Invalid Date. -/
def jsGE : Option Int → Option Int → Bool
  | some a, some b => decide (b ≤ a)
  | _, _ => false

/-- JS `x <= y` on `Date`s: false whenever either side is an Invalid Date. -/
def jsLE : Option Int → Option Int → Bool
  | some a, some b => decide (a ≤ b)
  | _, _ => false

/-- Stable insertion for the sort model: `x` lands right before the first
element `y` with `cmp x y ≤ 0`, so on ties the earlier element stays first. -/
def insertCmp {α : Type} (cmp : α → α → Int) (x : α) : List α → List α
  | [] => [x]
  | y :: ys => if cmp x y ≤ 0 then x :: y :: ys else y :: insertCmp cmp x ys

/-- Model of `Array.prototype.sort(cmp)` as a stable insertion sort.  For a
consistent comparator this is exactly the stable, comparator-sorted result
ECMAScript specifies; a comparator result of NaN is mapped to 0 by the
caller before reaching here (ECMAScript `SortCompare`). -/
def sortCmp {α : Type} (cmp : α → α → Int) : List α → List α
  | [] => []
  | x :: xs => insertCmp cmp x (sortCmp cmp xs)

theorem mem_insertCmp {α : Type} (cmp : α → α → Int) (x a : α) :
    ∀ l : List α, a ∈ insertCmp cmp x l ↔ a = x ∨ a ∈ l := by
  intro l
  induction l with
  | nil => simp [insertCmp]
  | cons y ys ih =>
    by_cases h : cmp x y ≤ 0
    · simp [insertCmp, h]
    · simp [insertCmp, h, ih]
      tauto

theorem mem_sortCmp {α : Type} (cmp : α → α → Int) (a : α) :
    ∀ l : List α, a ∈ sortCmp cmp l ↔ a ∈ l := by
  intro l
  induction l with
  | nil => simp [sortCmp]
  | cons x xs ih => simp [sortCmp, mem_insertCmp, ih]

theorem insertCmp_congr {α : Type} (cmp1 cmp2 : α → α → Int) (x : α)
    (l : List α) (h : ∀ b ∈ l, cmp1 x b = cmp2 x b) :
    insertCmp cmp1 x l = insertCmp cmp2 x l := by
  induction l with
  | nil => rfl
  | cons y ys ih =>
    have hy : cmp1 x y = cmp2 x y := h y (by simp)
    by_cases hc : cmp2 x y ≤ 0
    · simp [insertCmp, hy, hc]
    · simp [insertCmp, hy, hc]
      exact ih (fun b hb => h b (by simp [hb]))

theorem sortCmp_congr {α : Type} (cmp1 cmp2 : α → α → Int) (l : List α)
    (h : ∀ a ∈ l, ∀ b ∈ l, cmp1 a b = cmp2 a b) :
    sortCmp cmp1 l = sortCmp cmp2 l := by
  induction l with
  | nil => rfl
  | cons x xs ih =>
    show insertCmp cmp1 x (sortCmp cmp1 xs) = insertCmp cmp2 x (sortCmp cmp2 xs)
    rw [ih (fun a ha b hb => h a (by simp [ha]) b (by simp [hb]))]
    exact insertCmp_congr cmp1 cmp2 x (sortCmp cmp2 xs) (fun b hb =>
      h x (by simp) b (by simp [(mem_sortCmp cmp2 b xs).mp hb]))

theorem pairwise_insertCmp {α : Type} (cmp : α → α → Int)
    (htot : ∀ a b : α, ¬ cmp a b ≤ 0 → cmp b a ≤ 0)
    (htrans : ∀ a b c : α, cmp a b ≤ 0 → cmp b c ≤ 0 → cmp a c ≤ 0)
    (x : α) : ∀ l : List α, List.Pairwise (fun a b => cmp a b ≤ 0) l →
    List.Pairwise (fun a b => cmp a b ≤ 0) (insertCmp cmp x l) := by
  intro l hl
  induction l with
  | nil => simp [insertCmp]
  | cons y ys ih =>
    rcases List.pairwise_cons.mp hl with ⟨hy, hys⟩
    by_cases h : cmp x y ≤ 0
    · simp only [insertCmp, if_pos h]
      refine List.pairwise_cons.mpr ⟨?_, hl⟩
      intro z hz
      rcases List.mem_cons.mp hz with rfl | hz
      · exact h
      · exact htrans x y z h (hy z hz)
    · simp only [insertCmp, if_neg h]
      refine List.pairwise_cons.mpr ⟨?_, ih hys⟩
      intro z hz
      rcases (mem_insertCmp cmp x z ys).mp hz with heq | hz
      · rw [heq]; exact htot x y h
      · exact hy z hz

theorem pairwise_sortCmp {α : Type} (cmp : α → α → Int)
    (htot : ∀ a b : α, ¬ cmp a b ≤ 0 → cmp b a ≤ 0)
    (htrans : ∀ a b c : α, cmp a b ≤ 0 → cmp b c ≤ 0 → cmp a c ≤ 0) :
    ∀ l : List α, List.Pairwise (fun a b => cmp a b ≤ 0) (sortCmp cmp l) := by
  intro l
  induction l with
  | nil => simp [sortCmp]
  | cons x xs ih => exact pairwise_insertCmp cmp htot htrans x (sortCmp cmp xs) ih

/-! ## `FeedTransformService` (the transform engine) -/

/-- `FilterOptions`; `limit` is a natural number in the model. -/
structure FilterOptions where
  keywords : Option (List String) := none
  excludeKeywords : Option (List String) := none
  fromDate : Option String := none
  toDate : Option String := none
  categories : Option (List String) := none
  limit : Option Nat := none
deriving DecidableEq

/-- The `'date' | 'title'` sort key. -/
inductive SortBy where
  | date
  | title
deriving DecidableEq

/-- The `'asc' | 'desc'` sort direction. -/
inductive SortOrder where
  | asc
  | desc
deriving DecidableEq

/-- `SortOptions` (the source field `by` is a Lean keyword, hence `sortBy`). -/
structure SortOptions where
  sortBy : Option SortBy := none
  order : Option SortOrder := none
deriving DecidableEq

/-- Models `String.prototype.localeCompare` as code-point comparison; the
actual locale collation is environment-dependent and no claim depends on it. -/
def localeCompare (a b : String) : Int :=
  if a < b then -1 else if b < a then 1 else 0

namespace FeedTransformService

/-- The keyword filter stage: `if (options.keywords && options.keywords.length
> 0)` keep an item when ANY keyword is a (lower-cased) substring of
``` `${item.title} ${item.description}` ```. -/
def keywordsStep (keywords : Option (List String)) (items : List FeedItem) :
    List FeedItem :=
  match keywords with
  | some kws =>
    if 0 < kws.length then
      items.filter (fun item =>
        kws.any (fun keyword =>
          jsIncludes ((item.title ++ " " ++ item.description).toLower) keyword.toLower))
    else items
  | none => items

/-- The exclude-keyword stage: drop an item when ANY exclude keyword matches
the same concatenation. -/
def excludeStep (excludeKeywords : Option (List String)) (items : List FeedItem) :
    List FeedItem :=
  match excludeKeywords with
  | some kws =>
    if 0 < kws.length then
      items.filter (fun item =>
        !(kws.any (fun keyword =>
          jsIncludes ((item.title ++ " " ++ item.description).toLower) keyword.toLower)))
    else items
  | none => items

/-- The `fromDate` stage: `if (options.fromDate)` (present and nonempty),
keep items with `item.pubDate` nonempty and `new Date(item.pubDate) >=
new Date(options.fromDate)` (false on Invalid Dates). -/
def fromStep (p : String → Option Int) (fromDate : Option String)
    (items : List FeedItem) : List FeedItem :=
  match fromDate with
  | some s =>
    if s = "" then items
    else items.filter (fun item =>
      if item.pubDate = "" then false else jsGE (p item.pubDate) (p s))
  | none => items

/-- The `toDate` stage, symmetric to `fromStep` with `<=`. -/
def toStep (p : String → Option Int) (toDate : Option String)
    (items : List FeedItem) : List FeedItem :=
  match toDate with
  | some s =>
    if s = "" then items
    else items.filter (fun item =>
      if item.pubDate = "" then false else jsLE (p item.pubDate) (p s))
  | none => items

/-- Both date stages in the order the source applies them. -/
def dateSteps (p : String → Option Int) (fromDate toDate : Option String)
    (items : List FeedItem) : List FeedItem :=
  toStep p toDate (fromStep p fromDate items)

/-- The category stage: `if (!item.categories || item.categories.length ===
0) return false`, else ANY requested category must be a (lower-cased)
substring of ANY item category. -/
def categoriesStep (categories : Option (List String)) (items : List FeedItem) :
    List FeedItem :=
  match categories with
  | some cats =>
    if 0 < cats.length then
      items.filter (fun item =>
        match item.categories with
        | none => false
        | some ics =>
          if ics.length = 0 then false
          else cats.any (fun cat =>
            ics.any (fun itemCat => jsIncludes itemCat.toLower cat.toLower)))
    else items
  | none => items

/-- The limit stage: `if (options.limit && options.limit > 0)` truncate with
`slice(0, options.limit)` — a limit of 0 is falsy and skips the stage. -/
def limitStep (limit : Option Nat) (items : List FeedItem) : List FeedItem :=
  match limit with
  | some k => if 0 < k then items.take k else items
  | none => items

/-- `FeedTransformService.filter`: the five stages in source order, on a copy
of `feed.items`, returning `{...feed, items}`. -/
def filter (p : String → Option Int) (feed : ParsedFeed)
    (options : FilterOptions) : ParsedFeed :=
  let items :=
    limitStep options.limit
      (categoriesStep options.categories
        (dateSteps p options.fromDate options.toDate
          (excludeStep options.excludeKeywords
            (keywordsStep options.keywords feed.items))))
  { feed with items := items }

/-- `FeedTransformService.sort`: `order = options.order === 'asc' ? 1 : -1`;
`by: 'date'` compares `new Date(pubDate || 0).getTime()` differences times
`order` (NaN comparator results count as 0), `by: 'title'` uses
`localeCompare` times `order`, any other `by` leaves the copied items
untouched. -/
def sort (p : String → Option Int) (feed : ParsedFeed)
    (options : SortOptions) : ParsedFeed :=
  let order : Int := if options.order = some SortOrder.asc then 1 else -1
  let items : List FeedItem :=
    match options.sortBy with
    | some SortBy.date =>
      sortCmp (fun a b =>
        match itemTime p a, itemTime p b with
        | some dateA, some dateB => (dateA - dateB) * order
        | _, _ => 0) feed.items
    | some SortBy.title =>
      sortCmp (fun a b => localeCompare a.title b.title * order) feed.items
    | none => feed.items
  { feed with items := items }

/-- `FeedTransformService.merge`: throws `'No feeds to merge'` on an empty
sequence, else concatenates all items, sorts them by date descending (NaN
comparator results count as 0) and returns the fixed-header merged feed. -/
def merge (p : String → Option Int) (feeds : List ParsedFeed) :
    Except String ParsedFeed :=
  if feeds.length = 0 then .error "No feeds to merge"
  else
    let allItems := feeds.flatMap (fun feed => feed.items)
    let sorted := sortCmp (fun a b =>
      match itemTime p a, itemTime p b with
      | some dateA, some dateB => dateB - dateA
      | _, _ => 0) allItems
    .ok { title := "Merged Feed"
          description := "Merged feed from " ++ toString feeds.length ++ " sources"
          link := ""
          language := none
          feedType := .rss
          items := sorted }

end FeedTransformService

/-- A finite sample of the JS date parser, used to instantiate theorems on
concrete inputs (timestamps abbreviated). -/
def dateParseEx : String → Option Int := fun s =>
  if s = "2024-01-01" then some 100
  else if s = "2024-01-02" then some 200
  else if s = "2024-01-03" then some 300
  else none

/-- Claim C10: for a `SortOptions` whose `by` is neither `'date'` nor
`'title'` (absent in the typed model), `sort` returns the feed with the item
sequence in the original order, regardless of `order`. -/
theorem sort_other_by_id (p : String → Option Int) (feed : ParsedFeed)
    (o : Option SortOrder) :
    FeedTransformService.sort p feed { sortBy := none, order := o } = feed := rfl

/-- Claim C3 (amended): for every `k ≥ 1`,
`filter(feed, {limit: k}).items.length = min k feed.items.length`.
(For `k = 0` the truthiness guard skips the stage; see the counterexample.) -/
theorem filter_limit_length (p : String → Option Int) (feed : ParsedFeed)
    (k : Nat) (hk : 1 ≤ k) :
    (FeedTransformService.filter p feed { limit := some k }).items.length
      = min k feed.items.length := by
  have hk0 : 0 < k := hk
  simp [FeedTransformService.filter, FeedTransformService.keywordsStep,
    FeedTransformService.excludeStep, FeedTransformService.dateSteps,
    FeedTransformService.fromStep, FeedTransformService.toStep,
    FeedTransformService.categoriesStep, FeedTransformService.limitStep, hk0]

/-- A one-item feed. -/
def feedEx1 : ParsedFeed :=
  { title := "F"
    description := ""
    link := ""
    language := none
    feedType := .rss
    items := [{ title := "i1", link := "", description := "", pubDate := "" }] }

/-- Witness for C3 at `k = 5` on a one-item feed. -/
theorem filter_limit_length_witness :
    (FeedTransformService.filter dateParseEx feedEx1 { limit := some 5 }).items.length
      = min 5 feedEx1.items.length :=
  filter_limit_length dateParseEx feedEx1 5 (by decide)

/-- Counterexample to C3 as stated (for all `k ≥ 0`): with `limit: 0` the
guard `options.limit && options.limit > 0` is falsy, the truncation is
skipped, and a one-item feed keeps its item although `min 0 1 = 0`. -/
theorem filter_limit_length_cex :
    (FeedTransformService.filter dateParseEx feedEx1 { limit := some 0 }).items.length
      ≠ min 0 feedEx1.items.length := by decide

/-- Claim C2 (amended): for a feed in which every item's `pubDate` is empty
or parseable, the items of `sort(feed, {by:'date', order:'asc'})` are
non-decreasing in parsed timestamp (empty = 0).  (A nonempty unparseable
`pubDate` makes the comparator return NaN, which `SortCompare` treats as
"equal", so ordering around such items is not guaranteed; see the
counterexample.) -/
theorem sort_date_asc_sorted (p : String → Option Int) (feed : ParsedFeed)
    (h : ∀ it ∈ feed.items, it.pubDate = "" ∨ (p it.pubDate).isSome = true) :
    List.Pairwise (fun a b => t0 p a ≤ t0 p b)
      ((FeedTransformService.sort p feed
        { sortBy := some .date, order := some .asc }).items) := by
  have hsome : ∀ it ∈ feed.items, itemTime p it = some (t0 p it) := by
    intro it hit
    rcases h it hit with he | hs
    · simp [itemTime, t0, he]
    · obtain ⟨v, hv⟩ := Option.isSome_iff_exists.mp hs
      by_cases he : it.pubDate = ""
      · simp [itemTime, t0, he]
      · simp [itemTime, t0, he, hv]
  show List.Pairwise _
    (sortCmp (fun a b =>
      match itemTime p a, itemTime p b with
      | some dateA, some dateB => (dateA - dateB) * (1 : Int)
      | _, _ => 0) feed.items)
  rw [sortCmp_congr _ (fun a b => t0 p a - t0 p b) feed.items ?_]
  · have hp := pairwise_sortCmp (fun a b : FeedItem => t0 p a - t0 p b)
      (by intro a b hab; dsimp only at hab ⊢; omega)
      (by intro a b c h1 h2; dsimp only at h1 h2 ⊢; omega) feed.items
    exact hp.imp (by intro a b hab; omega)
  · intro a ha b hb
    rw [hsome a ha, hsome b hb]
    simp

/-- A feed with parseable and empty pubDates, initially out of order. -/
def feedW2 : ParsedFeed :=
  { title := "F"
    description := ""
    link := ""
    language := none
    feedType := .rss
    items := [
      { title := "a", link := "", description := "", pubDate := "2024-01-02" },
      { title := "b", link := "", description := "", pubDate := "" },
      { title := "c", link := "", description := "", pubDate := "2024-01-01" }] }

/-- Witness for C2 at `feedW2`. -/
theorem sort_date_asc_sorted_witness :
    List.Pairwise (fun a b => t0 dateParseEx a ≤ t0 dateParseEx b)
      ((FeedTransformService.sort dateParseEx feedW2
        { sortBy := some .date, order := some .asc }).items) :=
  sort_date_asc_sorted dateParseEx feedW2 (by decide)

/-- A feed whose middle item has a nonempty, unparseable pubDate. -/
def feedCex2 : ParsedFeed :=
  { title := "F"
    description := ""
    link := ""
    language := none
    feedType := .rss
    items := [
      { title := "a", link := "", description := "", pubDate := "2024-01-02" },
      { title := "b", link := "", description := "", pubDate := "not a date" },
      { title := "c", link := "", description := "", pubDate := "2024-01-01" }] }

/-- Counterexample to C2 as stated (for every feed): the middle item's
unparseable pubDate gives an Invalid Date, the comparator returns NaN
(`SortCompare` maps it to +0, "equal to everything"), so the sort leaves
timestamps `[200, NaN, 100]` in place — not non-decreasing when the
unparseable date counts as 0. -/
theorem sort_date_asc_sorted_cex :
    ¬ List.Pairwise (fun a b => t0 dateParseEx a ≤ t0 dateParseEx b)
      ((FeedTransformService.sort dateParseEx feedCex2
        { sortBy := some .date, order := some .asc }).items) := by decide

/-- The item sequence the specification describes for `merge`: the
concatenation of all feeds' items, stably sorted by parsed pubDate
descending, an empty or unparseable pubDate counting as timestamp 0. -/
def specMergeItems (p : String → Option Int) (feeds : List ParsedFeed) :
    List FeedItem :=
  sortCmp (fun a b => t0 p b - t0 p a) (feeds.flatMap (fun f => f.items))

/-- Claim C4 (amended): `merge []` fails with the `'No feeds to merge'`
(EmptyInput) error; for a nonempty list of feeds in which every item's
pubDate is empty or parseable, `merge` returns exactly the feed with title
`"Merged Feed"`, a description stating the source count, empty link,
`feedType: 'rss'`, and the concatenated items sorted by date descending
(no de-duplication).  (With a nonempty unparseable pubDate in the inputs the
code's NaN comparator deviates from date-descending order; see the
counterexample.) -/
theorem merge_spec (p : String → Option Int) (feeds : List ParsedFeed)
    (h : ∀ f ∈ feeds, ∀ it ∈ f.items, it.pubDate = "" ∨ (p it.pubDate).isSome = true) :
    (feeds = [] → FeedTransformService.merge p feeds = .error "No feeds to merge") ∧
    (feeds ≠ [] → FeedTransformService.merge p feeds = .ok
      { title := "Merged Feed"
        description := "Merged feed from " ++ toString feeds.length ++ " sources"
        link := ""
        language := none
        feedType := .rss
        items := specMergeItems p feeds }) := by
  constructor
  · intro he; subst he; rfl
  · intro hne
    have hlen : ¬ feeds.length = 0 := by
      simpa [List.length_eq_zero] using hne
    have hsome : ∀ it ∈ feeds.flatMap (fun f => f.items),
        itemTime p it = some (t0 p it) := by
      intro it hit
      obtain ⟨f, hf, hitf⟩ := List.mem_flatMap.mp hit
      rcases h f hf it hitf with he | hs
      · simp [itemTime, t0, he]
      · obtain ⟨v, hv⟩ := Option.isSome_iff_exists.mp hs
        by_cases he : it.pubDate = ""
        · simp [itemTime, t0, he]
        · simp [itemTime, t0, he, hv]
    unfold FeedTransformService.merge
    rw [if_neg hlen]
    have heq : sortCmp (fun a b =>
        match itemTime p a, itemTime p b with
        | some dateA, some dateB => dateB - dateA
        | _, _ => 0) (feeds.flatMap (fun feed => feed.items))
        = sortCmp (fun a b => t0 p b - t0 p a) (feeds.flatMap (fun feed => feed.items)) := by
      apply sortCmp_congr
      intro a ha b hb
      rw [hsome a ha, hsome b hb]
    simp only [specMergeItems, heq]

/-- Witness for C4: the empty case errors, and merging the single feed
`feedW2` (parseable/empty dates) yields exactly the described feed. -/
theorem merge_spec_witness :
    FeedTransformService.merge dateParseEx [] = .error "No feeds to merge" ∧
    FeedTransformService.merge dateParseEx [feedW2] = .ok
      { title := "Merged Feed"
        description := "Merged feed from " ++ toString (1 : Nat) ++ " sources"
        link := ""
        language := none
        feedType := .rss
        items := specMergeItems dateParseEx [feedW2] } :=
  ⟨(merge_spec dateParseEx [] (by decide)).1 rfl,
   by
    have h := (merge_spec dateParseEx [feedW2] (by decide)).2 (by decide)
    simpa using h⟩

/-- Counterexample to C4 as stated (for every nonempty input): merging the
single feed `feedCex2` does not return the date-descending-sorted
concatenation — the item with the unparseable pubDate compares "equal" to
everything through the NaN comparator and stays between the two dated items,
while date-descending order with unparseable = 0 puts it last. -/
theorem merge_spec_cex :
    (FeedTransformService.merge dateParseEx [feedCex2]).toOption.map ParsedFeed.items
      ≠ some (specMergeItems dateParseEx [feedCex2]) := by decide

/-- The parsed bound a date option contributes: `none` when the option is
absent, empty, or unparseable. -/
def boundOf (p : String → Option Int) (o : Option String) : Option Int :=
  match o with
  | some s => if s = "" then none else p s
  | none => none

theorem fromPred_iff (p : String → Option Int) (s : String) (a : Int)
    (hs : p s = some a) (it : FeedItem) :
    ((if it.pubDate = "" then false else jsGE (p it.pubDate) (p s)) = true)
      ↔ (it.pubDate ≠ "" ∧ ∃ t, p it.pubDate = some t ∧ a ≤ t) := by
  by_cases he : it.pubDate = ""
  · simp [he]
  · rw [if_neg he, hs]
    cases hp : p it.pubDate with
    | none => simp [jsGE, he, hp]
    | some t => simp [jsGE, he, hp]

theorem toPred_iff (p : String → Option Int) (s : String) (b : Int)
    (hs : p s = some b) (it : FeedItem) :
    ((if it.pubDate = "" then false else jsLE (p it.pubDate) (p s)) = true)
      ↔ (it.pubDate ≠ "" ∧ ∃ t, p it.pubDate = some t ∧ t ≤ b) := by
  by_cases he : it.pubDate = ""
  · simp [he]
  · rw [if_neg he, hs]
    cases hp : p it.pubDate with
    | none => simp [jsLE, he, hp]
    | some t => simp [jsLE, he, hp]

theorem mem_fromStep_active (p : String → Option Int) {fs : String} (a : Int)
    (hfs : ¬ fs = "") (ha : p fs = some a) (items : List FeedItem) (it : FeedItem) :
    it ∈ FeedTransformService.fromStep p (some fs) items
      ↔ it ∈ items ∧ (it.pubDate ≠ "" ∧ ∃ t, p it.pubDate = some t ∧ a ≤ t) := by
  simp only [FeedTransformService.fromStep]
  rw [if_neg hfs, List.mem_filter, fromPred_iff p fs a ha it]

theorem mem_toStep_active (p : String → Option Int) {ts : String} (b : Int)
    (hts : ¬ ts = "") (hb : p ts = some b) (items : List FeedItem) (it : FeedItem) :
    it ∈ FeedTransformService.toStep p (some ts) items
      ↔ it ∈ items ∧ (it.pubDate ≠ "" ∧ ∃ t, p it.pubDate = some t ∧ t ≤ b) := by
  simp only [FeedTransformService.toStep]
  rw [if_neg hts, List.mem_filter, toPred_iff p ts b hb it]

/-- Claim C6: whenever `filter` runs with a (truthy) `fromDate` and/or
`toDate` whose requested bounds are themselves parseable, an item survives
the date step iff its `pubDate` is non-empty, parseable, and its parsed
timestamp lies within the requested range; every item with an empty or
unparseable `pubDate` is excluded by any date filter. -/
theorem date_filter_spec (p : String → Option Int) (fromDate toDate : Option String)
    (items : List FeedItem) (it : FeedItem)
    (hone : truthyO fromDate = true ∨ truthyO toDate = true)
    (hf : ∀ s, fromDate = some s → s ≠ "" → (p s).isSome = true)
    (ht : ∀ s, toDate = some s → s ≠ "" → (p s).isSome = true) :
    it ∈ FeedTransformService.dateSteps p fromDate toDate items ↔
      (it ∈ items ∧ it.pubDate ≠ "" ∧ ∃ t, p it.pubDate = some t ∧
        (∀ a, boundOf p fromDate = some a → a ≤ t) ∧
        (∀ b, boundOf p toDate = some b → t ≤ b)) := by
  unfold FeedTransformService.dateSteps
  rcases fromDate with _ | fs
  · rcases toDate with _ | ts
    · simp [truthyO, truthyS] at hone
    · by_cases hts : ts = ""
      · subst hts
        simp [truthyO, truthyS] at hone
      · obtain ⟨b, hb⟩ := Option.isSome_iff_exists.mp (ht ts rfl hts)
        show it ∈ FeedTransformService.toStep p (some ts) items ↔ _
        rw [mem_toStep_active p b hts hb items it]
        simp [boundOf, hts, hb]
  · rcases toDate with _ | ts
    · by_cases hfs : fs = ""
      · subst hfs
        simp [truthyO, truthyS] at hone
      · obtain ⟨a, ha⟩ := Option.isSome_iff_exists.mp (hf fs rfl hfs)
        show it ∈ FeedTransformService.fromStep p (some fs) items ↔ _
        rw [mem_fromStep_active p a hfs ha items it]
        simp [boundOf, hfs, ha]
    · by_cases hfs : fs = ""
      · by_cases hts : ts = ""
        · subst hfs hts
          simp [truthyO, truthyS] at hone
        · subst hfs
          obtain ⟨b, hb⟩ := Option.isSome_iff_exists.mp (ht ts rfl hts)
          have hskip : FeedTransformService.fromStep p (some "") items = items := rfl
          rw [hskip, mem_toStep_active p b hts hb items it]
          simp [boundOf, hts, hb]
      · by_cases hts : ts = ""
        · subst hts
          obtain ⟨a, ha⟩ := Option.isSome_iff_exists.mp (hf fs rfl hfs)
          have hskip : ∀ l : List FeedItem,
              FeedTransformService.toStep p (some "") l = l := fun l => rfl
          rw [hskip, mem_fromStep_active p a hfs ha items it]
          simp [boundOf, hfs, ha]
        · obtain ⟨a, ha⟩ := Option.isSome_iff_exists.mp (hf fs rfl hfs)
          obtain ⟨b, hb⟩ := Option.isSome_iff_exists.mp (ht ts rfl hts)
          rw [mem_toStep_active p b hts hb _ it, mem_fromStep_active p a hfs ha items it]
          simp only [boundOf, if_neg hfs, if_neg hts, ha, hb, Option.some.injEq]
          constructor
          · rintro ⟨⟨hmem, hne, t, hpt, hat⟩, -, t', hpt', htb⟩
            rw [hpt] at hpt'
            obtain rfl : t = t' := Option.some.inj hpt'
            exact ⟨hmem, hne, t, hpt,
              fun a' ha' => ha' ▸ hat, fun b' hb' => hb' ▸ htb⟩
          · rintro ⟨hmem, hne, t, hpt, hat, htb⟩
            exact ⟨⟨hmem, hne, t, hpt, hat a rfl⟩, hne, t, hpt, htb b rfl⟩

/-- Witness item for the C6 date filter. -/
def itW6 : FeedItem :=
  { title := "w", link := "", description := "", pubDate := "2024-01-02" }

/-- Witness for C6 on a one-item list with both bounds parseable. -/
theorem date_filter_spec_witness :
    itW6 ∈ FeedTransformService.dateSteps dateParseEx
        (some "2024-01-01") (some "2024-01-03") [itW6] ↔
      (itW6 ∈ [itW6] ∧ itW6.pubDate ≠ "" ∧ ∃ t, dateParseEx itW6.pubDate = some t ∧
        (∀ a, boundOf dateParseEx (some "2024-01-01") = some a → a ≤ t) ∧
        (∀ b, boundOf dateParseEx (some "2024-01-03") = some b → t ≤ b)) :=
  date_filter_spec dateParseEx (some "2024-01-01") (some "2024-01-03") [itW6] itW6
    (Or.inl (by decide))
    (by intro s hs hne; injection hs with h; subst h; decide)
    (by intro s hs hne; injection hs with h; subst h; decide)

/-! ## `ContentEnhancementService` (the content enhancer) -/

/-- The single-pass state machine implementing
`content.replace(/<[^>]*>/g, '')`: outside a tag (`inTag = false`), a `<`
switches into tag mode; inside a tag, everything up to the first `>` is
consumed and dropped; a `<` that is never followed by a `>` matches nothing
in the regex, so the consumed characters (tracked reversed in `acc`) are
emitted verbatim when the input ends inside an unterminated tag. -/
def stripAux : List Char → Bool → List Char → List Char
  | [], inTag, acc => if inTag then acc.reverse else []
  | c :: rest, false, _ =>
    if c = '<' then stripAux rest true [c] else c :: stripAux rest false []
  | c :: rest, true, acc =>
    if c = '>' then stripAux rest false [] else stripAux rest true (c :: acc)

/-- `content.replace(/<[^>]*>/g, '')` — remove HTML tags. -/
def stripTags (l : List Char) : List Char := stripAux l false []

/-- JS `text.split(/\s+/)`: the segments between maximal whitespace runs,
including the empty segment a leading or trailing run produces, and `[""]`
for the empty string.  `mode = true` means the scanner is inside a
whitespace run (the preceding segment has been emitted); `acc` holds the
current segment reversed. -/
def splitWsAux : List Char → Bool → List Char → List (List Char)
  | [], true, _ => [[]]
  | [], false, acc => [acc.reverse]
  | c :: rest, true, _ =>
    if isWs c then splitWsAux rest true [] else splitWsAux rest false [c]
  | c :: rest, false, acc =>
    if isWs c then acc.reverse :: splitWsAux rest true []
    else splitWsAux rest false (c :: acc)

/-- JS `text.split(/\s+/)`. -/
def splitWs (l : List Char) : List (List Char) := splitWsAux l false []

theorem splitWsAux_ne_nil :
    ∀ (l : List Char) (m : Bool) (acc : List Char),
      1 ≤ (splitWsAux l m acc).length := by
  intro l
  induction l with
  | nil =>
    intro m acc
    cases m <;> simp [splitWsAux]
  | cons c rest ih =>
    intro m acc
    cases m
    · by_cases h : isWs c
      · simp [splitWsAux, h]
      · simp only [splitWsAux, h, if_neg, Bool.false_eq_true]
        exact ih false (c :: acc)
    · by_cases h : isWs c
      · simp only [splitWsAux, h, if_pos]
        exact ih true []
      · simp only [splitWsAux, h, if_neg, Bool.false_eq_true]
        exact ih false [c]

namespace ContentEnhancementService

/-- One item of `enhanceWithFullText`'s `Promise.all` map.  The outbound
fetch-and-extract (`extractFullContent`) is the explicit parameter
`fetchExtract`: `none` models a failed fetch, a thrown error (caught and
logged) or a page yielding nothing; `some s` the extracted HTML.
`if (item.content && item.content.length > 200) return item` short-circuits,
and `if (fullContent)` requires a truthy (nonempty) extraction result. -/
def enhanceItem (fetchExtract : String → Option String) (item : FeedItem) :
    FeedItem :=
  if truthyO item.content && decide (200 < (item.content.getD "").length) then
    item
  else
    match fetchExtract item.link with
    | some fullContent =>
      if fullContent = "" then item
      else { item with content := some fullContent }
    | none => item

/-- `enhanceWithFullText`: every item is processed (concurrently in the
source, with results assembled by original index), hence a map over the item
list; the feed is rebuilt as `{...feed, items}`. -/
def enhanceWithFullText (fetchExtract : String → Option String)
    (feed : ParsedFeed) : ParsedFeed :=
  { feed with items := feed.items.map (enhanceItem fetchExtract) }

/-- `calculateReadingTime`: strip HTML tags, split on whitespace runs, count
the segments and divide by 200 words per minute, rounding up
(`Math.ceil(words / 200)` is `(words + 199) / 200` on naturals). -/
def calculateReadingTime (content : String) : Nat :=
  let text := stripTags content.data
  let words := (splitWs text).length
  (words + 199) / 200

/-- The per-item body of `extractMetadata`'s map: compute the reading time
from `item.content || item.description` and append ``' (<n> min read)'`` to
the description when the time is truthy (nonzero). -/
def metadataItem (item : FeedItem) : FeedItem :=
  let readingTime := calculateReadingTime (jsOrStr item.content item.description)
  { item with description :=
      item.description ++
        (if readingTime ≠ 0 then
          " (" ++ toString readingTime ++ " min read)"
        else "") }

/-- `extractMetadata`: rewrite every item with `metadataItem` and rebuild the
feed as `{...feed, items}`. -/
def extractMetadata (feed : ParsedFeed) : ParsedFeed :=
  { feed with items := feed.items.map metadataItem }

end ContentEnhancementService

/-- The transformation the specification describes for `extractMetadata`:
append `" (<n> min read)"` to every item's description, with
`n = ceil(word_count(strip_html(content or description)) / 200)` and words
counted by splitting the stripped text on whitespace runs (stated from the
spec's words, with the append unconditional). -/
def specExtractMetadata (feed : ParsedFeed) : ParsedFeed :=
  { feed with items := feed.items.map (fun item =>
      let n := ((splitWs (stripTags
        (jsOrStr item.content item.description).data)).length + 199) / 200
      { item with description :=
          item.description ++ (" (" ++ toString n ++ " min read)") }) }

/-- Claim C9: `extractMetadata` performs exactly the specified description
rewrite on every item, leaving all other item fields and all feed-level
fields unchanged.  The append is in fact unconditional: splitting never
yields an empty segment list, so the reading time is always at least 1 and
the truthiness guard in the source always passes. -/
theorem extractMetadata_spec (feed : ParsedFeed) :
    ContentEnhancementService.extractMetadata feed = specExtractMetadata feed := by
  unfold ContentEnhancementService.extractMetadata ContentEnhancementService.metadataItem specExtractMetadata
  congr 1
  apply List.map_congr_left
  intro item hitem
  have hw : 1 ≤ (splitWs (stripTags
      (jsOrStr item.content item.description).data)).length :=
    splitWsAux_ne_nil _ _ _
  have hdiv : ((splitWs (stripTags
      (jsOrStr item.content item.description).data)).length + 199) / 200 ≠ 0 := by
    have h200 : 0 < 200 := by decide
    have hd := (Nat.le_div_iff_mul_le h200).mpr
      (by omega : 1 * 200 ≤ (splitWs (stripTags
        (jsOrStr item.content item.description).data)).length + 199)
    omega
  have hrt : ContentEnhancementService.calculateReadingTime
      (jsOrStr item.content item.description) ≠ 0 := hdiv
  simp only [ne_eq, hrt, not_false_eq_true, if_pos]
  rfl

/-- Claim C8: `enhanceWithFullText` returns one output item per input item in
the original order (a total map — one item's failure never aborts the rest);
an item whose content is already nonempty and longer than 200 characters is
returned unchanged; an item whose fetch/extraction fails is returned
unchanged; and any changed item differs from its input only in `content`. -/
theorem enhance_frame (fetchExtract : String → Option String) (feed : ParsedFeed) :
    (ContentEnhancementService.enhanceWithFullText fetchExtract feed).items
      = feed.items.map (ContentEnhancementService.enhanceItem fetchExtract) ∧
    (ContentEnhancementService.enhanceWithFullText fetchExtract feed).items.length
      = feed.items.length ∧
    (∀ item : FeedItem, truthyO item.content = true →
      200 < (item.content.getD "").length →
      ContentEnhancementService.enhanceItem fetchExtract item = item) ∧
    (∀ item : FeedItem, fetchExtract item.link = none →
      ContentEnhancementService.enhanceItem fetchExtract item = item) ∧
    (∀ item : FeedItem,
      ContentEnhancementService.enhanceItem fetchExtract item ≠ item →
      ContentEnhancementService.enhanceItem fetchExtract item
        = { item with
            content := (ContentEnhancementService.enhanceItem fetchExtract item).content }) := by
  refine ⟨rfl, by simp [ContentEnhancementService.enhanceWithFullText], ?_, ?_, ?_⟩
  · intro item h1 h2
    unfold ContentEnhancementService.enhanceItem
    rw [if_pos]
    rw [h1, Bool.true_and]
    exact decide_eq_true h2
  · intro item hf
    unfold ContentEnhancementService.enhanceItem
    by_cases hc : (truthyO item.content
        && decide (200 < (item.content.getD "").length)) = true
    · rw [if_pos hc]
    · rw [if_neg hc, hf]
  · intro item hne
    unfold ContentEnhancementService.enhanceItem at hne ⊢
    by_cases hc : (truthyO item.content
        && decide (200 < (item.content.getD "").length)) = true
    · rw [if_pos hc] at hne
      exact absurd rfl hne
    · rw [if_neg hc] at hne ⊢
      cases hfe : fetchExtract item.link with
      | none =>
        rw [hfe] at hne
      | some s =>
        show (if s = "" then item else { item with content := some s })
            = { item with content := ((if s = "" then item
                else { item with content := some s }) : FeedItem).content }
        by_cases hs : s = ""
        · rw [if_pos hs]
        · rw [if_neg hs]

/-- An item whose content is long enough to skip the fetch. -/
def itemW8 : FeedItem :=
  { title := "t", link := "u", description := "d", pubDate := ""
    content := some (String.mk (List.replicate 201 'x')) }

set_option maxRecDepth 4000 in
/-- Witness for C8: the map shape on `feedEx1`, the skip of a long-content
item, and the unchanged result under a failing fetch. -/
theorem enhance_frame_witness :
    (ContentEnhancementService.enhanceWithFullText (fun _ => none) feedEx1).items
      = feedEx1.items.map (ContentEnhancementService.enhanceItem (fun _ => none)) ∧
    ContentEnhancementService.enhanceItem (fun _ => none) itemW8 = itemW8 ∧
    ContentEnhancementService.enhanceItem (fun _ => none) itemW8 = itemW8 :=
  ⟨(enhance_frame (fun _ => none) feedEx1).1,
   (enhance_frame (fun _ => none) feedEx1).2.2.1 itemW8 (by decide) (by decide),
   (enhance_frame (fun _ => none) feedEx1).2.2.2.1 itemW8 rfl⟩

/-! ## The heap model for the no-mutation claim

JavaScript arrays are heap references, so whether an operation mutates its
inputs is invisible to a pure value model.  `Store` makes the item arrays
explicit heap cells: spreads (`[...feed.items]`), `Array.prototype.filter`,
`slice`, `map` and `flatMap` allocate fresh cells, while
`Array.prototype.sort` writes its cell in place.  Each `...Impl` below is
the corresponding source operation with its array reads, allocations and
in-place writes spelled out; the pure stage functions are shared with the
value model. -/

/-- The heap of item arrays. -/
abbrev Store := List (List FeedItem)

/-- A `ParsedFeed` whose `items` array is a heap reference. -/
structure FeedRef where
  title : String
  description : String
  link : String
  language : Option String := none
  feedType : FeedType
  items : Nat
deriving DecidableEq

/-- Read an array cell. -/
def readRef (sigma : Store) (r : Nat) : List FeedItem := sigma.getD r []

/-- Allocate a fresh cell holding `a`; returns the new store and the fresh
reference. -/
def alloc (sigma : Store) (a : List FeedItem) : Store × Nat :=
  (sigma ++ [a], sigma.length)

/-- Overwrite a cell in place (what `Array.prototype.sort` does). -/
def writeRef (sigma : Store) (r : Nat) (a : List FeedItem) : Store :=
  sigma.set r a

theorem readRef_append (sigma : Store) (x : List FeedItem) (i : Nat)
    (hi : i < sigma.length) : readRef (sigma ++ [x]) i = readRef sigma i := by
  unfold readRef
  rw [List.getD_eq_getElem?_getD, List.getD_eq_getElem?_getD,
    List.getElem?_append_left hi]

theorem set_append_length (sigma : Store) (x y : List FeedItem) :
    (sigma ++ [x]).set sigma.length y = sigma ++ [y] := by
  induction sigma with
  | nil => rfl
  | cons a t ih => simp [List.set, ih]

namespace FeedTransformService

/-- `filter` in the heap model: read the input array, run the filter stages
(each `filter`/`slice` allocates; the final array is kept) and return
`{...feed, items}` pointing at the fresh result. -/
def filterImpl (p : String → Option Int) (sigma : Store) (feed : FeedRef)
    (options : FilterOptions) : Store × FeedRef :=
  let items0 := readRef sigma feed.items
  let res := limitStep options.limit
    (categoriesStep options.categories
      (dateSteps p options.fromDate options.toDate
        (excludeStep options.excludeKeywords
          (keywordsStep options.keywords items0))))
  let a := alloc sigma res
  (a.1, { feed with items := a.2 })

/-- `sort` in the heap model: `const items = [...feed.items]` allocates a
copy, then `items.sort(...)` sorts that fresh cell in place (no write at all
when `by` selects no comparator). -/
def sortImpl (p : String → Option Int) (sigma : Store) (feed : FeedRef)
    (options : SortOptions) : Store × FeedRef :=
  let a := alloc sigma (readRef sigma feed.items)
  let order : Int := if options.order = some SortOrder.asc then 1 else -1
  let sigma2 :=
    match options.sortBy with
    | some SortBy.date =>
      writeRef a.1 a.2 (sortCmp (fun x y =>
        match itemTime p x, itemTime p y with
        | some dateA, some dateB => (dateA - dateB) * order
        | _, _ => 0) (readRef a.1 a.2))
    | some SortBy.title =>
      writeRef a.1 a.2 (sortCmp (fun x y =>
        localeCompare x.title y.title * order) (readRef a.1 a.2))
    | none => a.1
  (sigma2, { feed with items := a.2 })

/-- `merge` in the heap model: `flatMap` reads every input feed's array and
allocates the concatenation, then `allItems.sort(...)` sorts that fresh cell
in place. -/
def mergeImpl (p : String → Option Int) (sigma : Store) (feeds : List FeedRef) :
    Store × Except String FeedRef :=
  if feeds.length = 0 then (sigma, .error "No feeds to merge")
  else
    let a := alloc sigma (feeds.flatMap (fun feed => readRef sigma feed.items))
    let sigma2 := writeRef a.1 a.2 (sortCmp (fun x y =>
      match itemTime p x, itemTime p y with
      | some dateA, some dateB => dateB - dateA
      | _, _ => 0) (readRef a.1 a.2))
    (sigma2, .ok { title := "Merged Feed"
                   description := "Merged feed from " ++ toString feeds.length ++ " sources"
                   link := ""
                   language := none
                   feedType := .rss
                   items := a.2 })

end FeedTransformService

namespace ContentEnhancementService

/-- `enhanceWithFullText` in the heap model: `map` reads the input array and
allocates the enhanced array (each changed item is a fresh `{...item}`
object). -/
def enhanceImpl (fetchExtract : String → Option String) (sigma : Store)
    (feed : FeedRef) : Store × FeedRef :=
  let a := alloc sigma ((readRef sigma feed.items).map (enhanceItem fetchExtract))
  (a.1, { feed with items := a.2 })

/-- `extractMetadata` in the heap model: `map` reads the input array and
allocates the rewritten array. -/
def extractImpl (sigma : Store) (feed : FeedRef) : Store × FeedRef :=
  let a := alloc sigma ((readRef sigma feed.items).map metadataItem)
  (a.1, { feed with items := a.2 })

end ContentEnhancementService

/-- Claim C7: none of `filter`, `sort`, `merge`, `enhanceWithFullText`,
`extractMetadata` mutates a pre-existing heap cell — after any of the calls,
every array that existed before reads exactly as it did before, so every
input `ParsedFeed` (including its items sequence) is unchanged — and each
call returns a new `ParsedFeed` whose items array is freshly allocated
(`merge` on the empty input fails without touching the heap). -/
theorem no_input_mutation (p : String → Option Int)
    (fetchExtract : String → Option String) (sigma : Store) (feed : FeedRef)
    (fopts : FilterOptions) (sopts : SortOptions) (feeds : List FeedRef) :
    ((∀ i, i < sigma.length →
      readRef (FeedTransformService.filterImpl p sigma feed fopts).1 i
        = readRef sigma i) ∧
     (FeedTransformService.filterImpl p sigma feed fopts).2.items = sigma.length) ∧
    ((∀ i, i < sigma.length →
      readRef (FeedTransformService.sortImpl p sigma feed sopts).1 i
        = readRef sigma i) ∧
     (FeedTransformService.sortImpl p sigma feed sopts).2.items = sigma.length) ∧
    ((∀ i, i < sigma.length →
      readRef (FeedTransformService.mergeImpl p sigma feeds).1 i
        = readRef sigma i) ∧
     (∀ g, (FeedTransformService.mergeImpl p sigma feeds).2 = .ok g →
       g.items = sigma.length)) ∧
    ((∀ i, i < sigma.length →
      readRef (ContentEnhancementService.enhanceImpl fetchExtract sigma feed).1 i
        = readRef sigma i) ∧
     (ContentEnhancementService.enhanceImpl fetchExtract sigma feed).2.items
        = sigma.length) ∧
    ((∀ i, i < sigma.length →
      readRef (ContentEnhancementService.extractImpl sigma feed).1 i
        = readRef sigma i) ∧
     (ContentEnhancementService.extractImpl sigma feed).2.items = sigma.length) := by
  refine ⟨⟨?_, rfl⟩, ⟨?_, rfl⟩, ⟨?_, ?_⟩, ⟨?_, rfl⟩, ⟨?_, rfl⟩⟩
  · intro i hi
    exact readRef_append sigma _ i hi
  · intro i hi
    show readRef (match sopts.sortBy with
      | some SortBy.date => writeRef _ _ _
      | some SortBy.title => writeRef _ _ _
      | none => (alloc sigma (readRef sigma feed.items)).1) i = readRef sigma i
    rcases sopts.sortBy with _ | b
    · exact readRef_append sigma _ i hi
    · cases b <;>
        (show readRef (writeRef (sigma ++ [_]) sigma.length _) i = readRef sigma i
         unfold writeRef
         rw [set_append_length]
         exact readRef_append sigma _ i hi)
  · intro i hi
    unfold FeedTransformService.mergeImpl
    by_cases hz : feeds.length = 0
    · rw [if_pos hz]
    · rw [if_neg hz]
      show readRef (writeRef (sigma ++ [_]) sigma.length _) i = readRef sigma i
      unfold writeRef
      rw [set_append_length]
      exact readRef_append sigma _ i hi
  · intro g hg
    unfold FeedTransformService.mergeImpl at hg
    by_cases hz : feeds.length = 0
    · rw [if_pos hz] at hg
      exact absurd hg (by simp)
    · rw [if_neg hz] at hg
      have hg' := Except.ok.inj hg
      rw [← hg']
      rfl
  · intro i hi
    exact readRef_append sigma _ i hi
  · intro i hi
    exact readRef_append sigma _ i hi

/-- The heap reference used by the C7 witness: `feedW2` with its item array
stored in cell 0. -/
def refW7 : FeedRef :=
  { title := feedW2.title, description := feedW2.description,
    link := feedW2.link, language := none, feedType := .rss, items := 0 }

/-- Witness for C7: at a concrete one-cell heap, `filterImpl` leaves the
pre-existing cell readable unchanged, and the feed `mergeImpl` returns points
at the freshly allocated cell 1. -/
theorem no_input_mutation_witness :
    readRef (FeedTransformService.filterImpl dateParseEx [feedW2.items] refW7
        { limit := some 1 }).1 0
      = readRef [feedW2.items] 0 ∧
    (FeedTransformService.mergeImpl dateParseEx [feedW2.items] [refW7]).2.toOption.map
        FeedRef.items = some 1 :=
  ⟨((no_input_mutation dateParseEx (fun _ => none) [feedW2.items] refW7
      { limit := some 1 } {} []).1).1 0 (by decide),
   by
    have h := ((no_input_mutation dateParseEx (fun _ => none) [feedW2.items] refW7
      { limit := some 1 } {} [refW7]).2.2.1).2
    have hm : (FeedTransformService.mergeImpl dateParseEx [feedW2.items] [refW7]).2
        = Except.ok
          { title := "Merged Feed"
            description := "Merged feed from "
              ++ toString ([refW7] : List FeedRef).length ++ " sources"
            link := ""
            language := none
            feedType := FeedType.rss
            items := 1 } := rfl
    rw [hm]
    exact congrArg some (h _ hm)⟩
